import Mathlib

/-!
Verification development for the acton-reactive actor runtime
(GovCraft/acton-reactive and its predecessors akton/quasar).

The definitions below are a shallow embedding of the runtime's core:
runtime type identities, type-erased message payloads, envelopes, the
reactor map keyed by type id, and the mailbox drain loop
(ManagedAgent::<Started, Agent>::wake in
acton-core/src/actor/managed_agent/started.rs).  The asynchronous drain
loop is modelled as a function from the finite list of envelopes that
will ever be delivered on the mailbox to the final user state plus a
trace of observable events; the trace order is the await order of the
source, because every awaited step in the source runs to completion
before the next one starts.
-/

/-- Runtime type identity (std::any::TypeId).  User message types get a
distinct `user n` id; the `SystemSignal` enum and the
`BrokerRequestEnvelope` wrapper are library types with their own ids. -/
inductive TypeId where
  | user (n : Nat)
  | signal
  | brokerEnv
deriving DecidableEq, Repr

/-- A type-erased message payload (Box of dyn ActonMessage).  `user tid v`
is a user message of runtime type `tid` carrying data `v`;
`signalTerminate` is `SystemSignal::Terminate` (the only variant of the
enum); `brokerWrap inner` is a `BrokerRequestEnvelope` whose `message`
field holds `inner`.  Downcasting to a concrete type succeeds exactly
when the constructor matches, as `Any::downcast_ref` does. -/
inductive Message where
  | user (tid : Nat) (v : Nat)
  | signalTerminate
  | brokerWrap (inner : Message)
deriving DecidableEq, Repr

/-- The runtime type id returned by `message.as_any().type_id()`. -/
def typeOf : Message → TypeId
  | Message.user tid _ => TypeId.user tid
  | Message.signalTerminate => TypeId.signal
  | Message.brokerWrap _ => TypeId.brokerEnv

/-- An envelope: payload plus the sender's return address (modelled as an
optional sender id, enough to track which address a dispatched envelope
carries). -/
structure EnvelopeL where
  message : Message
  returnAddress : Option Nat
deriving DecidableEq, Repr

/-- The BrokerRequestEnvelope special case of the dispatcher
(started.rs lines 62-75): if the payload downcasts to
`BrokerRequestEnvelope`, a new envelope is built from a clone of the
inner message and the outer envelope's return address; otherwise the
incoming envelope is used unchanged.  Cloning is the identity on values
in the model. -/
def unwrapEnvelope (incoming : EnvelopeL) : EnvelopeL :=
  match incoming.message with
  | Message.brokerWrap inner => { message := inner, returnAddress := incoming.returnAddress }
  | _ => incoming

/-- A registered handler: `messageReactor` is the synchronous
`ReactorItem::MessageReactor`, `futureReactor` the awaited
`ReactorItem::FutureReactor`.  Both receive the agent (user state `S`)
and the dispatched envelope; state mutation is modelled as a function on
`S`. -/
inductive ReactorItem (S : Type) where
  | messageReactor (f : S → EnvelopeL → S)
  | futureReactor (f : S → EnvelopeL → S)

/-- Runs a reactor on the agent state. -/
def applyReactor {S : Type} : ReactorItem S → S → EnvelopeL → S
  | ReactorItem.messageReactor f, s, e => f s e
  | ReactorItem.futureReactor f, s, e => f s e

/-- Whether the reactor is the awaited (async) form. -/
def isFutureReactor {S : Type} : ReactorItem S → Bool
  | ReactorItem.messageReactor _ => false
  | ReactorItem.futureReactor _ => true

/-- The reactor map (DashMap from TypeId to ReactorItem), modelled as an
association list; `reactorsGet` is map lookup and `reactorsInsert` is
map insert, which replaces any existing binding for the key exactly as
`DashMap::insert` does. -/
def ReactorMap (S : Type) : Type := List (TypeId × ReactorItem S)

/-- Lookup in the reactor map (`reactors.get(&type_id)`). -/
def reactorsGet {S : Type} : ReactorMap S → TypeId → Option (ReactorItem S)
  | [], _ => none
  | (t, r) :: rest, tid => if t = tid then some r else reactorsGet rest tid

/-- Insert into the reactor map (`DashMap::insert`): the new binding
replaces any previous binding for the same type id. -/
def reactorsInsert {S : Type} (m : ReactorMap S) (tid : TypeId) (r : ReactorItem S) :
    ReactorMap S :=
  (tid, r) :: m.filter (fun p => decide (¬ p.1 = tid))

/-- Reactor registration, `MyActorIdle::act_on::<M>` in
quasar/src/lib.rs: inserts the boxed handler into the reactor map keyed
by `TypeId::of::<M>()`. -/
def act_on {S : Type} (m : ReactorMap S) (tid : TypeId) (r : ReactorItem S) : ReactorMap S :=
  reactorsInsert m tid r

/-- Number of entries in the reactor map for a given type id. -/
def countKey {S : Type} (m : ReactorMap S) (tid : TypeId) : Nat :=
  (m.filter (fun p => decide (p.1 = tid))).length

/-- Observable events of the Started agent's drain loop, in await order. -/
inductive Event where
  | afterStartAwaited
  | dequeued (e : EnvelopeL)
  | debugLogged (tid : TypeId)
  | reactorInvoked (tid : TypeId) (e : EnvelopeL) (isFuture : Bool)
  | beforeStopAwaited
  | mailboxClosed
  | childStopAwaited (c : Nat)
  | afterStopAwaited
deriving DecidableEq, Repr

/-- Result of the receive loop of `wake` (started.rs lines 56-92):
final user state, emitted events, whether `terminate_requested` was set,
and the envelopes still buffered in the mailbox when the loop exited. -/
structure DrainOut (S : Type) where
  state : S
  trace : List Event
  termReq : Bool
  remaining : List EnvelopeL

/-- The receive loop of `ManagedAgent::<Started, Agent>::wake`
(started.rs lines 56-92).  Each iteration dequeues one envelope, logs
its payload type at debug level (line 60), unwraps a
`BrokerRequestEnvelope` (lines 62-75), then either invokes the reactor
registered for the dispatched type id (a FutureReactor is awaited to
completion before the next dequeue, lines 77-81), or, when no reactor
exists and the payload downcasts to `SystemSignal::Terminate`, sets
`terminate_requested`, awaits `before_stop`, closes the mailbox and
breaks (lines 82-91); any other unhandled message falls through and the
loop continues.  The input list is the full sequence of envelopes ever
enqueued; exhausting it models `recv` returning `None` (all senders
dropped). -/
def drain {S : Type} (rs : ReactorMap S) (bs : S → S) :
    List EnvelopeL → S → DrainOut S
  | [], s => ⟨s, [], false, []⟩
  | e :: rest, s =>
    let env := unwrapEnvelope e
    let tid := typeOf env.message
    match reactorsGet rs tid with
    | some r =>
      let d := drain rs bs rest (applyReactor r s env)
      ⟨d.state,
       Event.dequeued e :: Event.debugLogged (typeOf e.message) ::
         Event.reactorInvoked tid env (isFutureReactor r) :: d.trace,
       d.termReq, d.remaining⟩
    | none =>
      if env.message = Message.signalTerminate then
        ⟨bs s,
         [Event.dequeued e, Event.debugLogged (typeOf e.message),
          Event.beforeStopAwaited, Event.mailboxClosed],
         true, rest⟩
      else
        let d := drain rs bs rest s
        ⟨d.state,
         Event.dequeued e :: Event.debugLogged (typeOf e.message) :: d.trace,
         d.termReq, d.remaining⟩

/-- Events emitted for a single envelope that does not take the
Terminate branch: dequeue, the line-60 debug log, and the reactor
invocation when one is registered. -/
def stepTrace {S : Type} (rs : ReactorMap S) (e : EnvelopeL) : List Event :=
  let env := unwrapEnvelope e
  let tid := typeOf env.message
  Event.dequeued e :: Event.debugLogged (typeOf e.message) ::
    (match reactorsGet rs tid with
     | some r => [Event.reactorInvoked tid env (isFutureReactor r)]
     | none => [])

/-- State transformation of a single envelope that does not take the
Terminate branch. -/
def stepState {S : Type} (rs : ReactorMap S) (s : S) (e : EnvelopeL) : S :=
  let env := unwrapEnvelope e
  match reactorsGet rs (typeOf env.message) with
  | some r => applyReactor r s env
  | none => s

/-- The agent as seen by `wake`: user state plus the four lifecycle
hooks (each awaited, modelled as state transformers) and the ids of the
children currently in the handle's children map. -/
structure AgentM (S : Type) where
  state : S
  after_start : S → S
  before_stop : S → S
  after_stop : S → S
  children : List Nat

/-- Events of `ManagedAgent::<Started, Agent>::terminate`
(started.rs lines 104-123): `child.stop()` is collected for every child
and the futures are awaited together with `join_all`, so each child's
stop has resolved before the trailing `self.inbox.close()`. -/
def terminateTrace (children : List Nat) : List Event :=
  children.map Event.childStopAwaited ++ [Event.mailboxClosed]

/-- Mailbox close state. -/
structure MailboxState where
  closed : Bool
deriving DecidableEq, Repr

/-- `terminate` as a state transformer on the mailbox close flag:
`Receiver::close` is idempotent, so the flag is simply set, whatever it
was before, and the call cannot fail. -/
def terminateRun (children : List Nat) (mb : MailboxState) :
    MailboxState × List Event :=
  (⟨true⟩, terminateTrace children)

/-- Result of `wake`: final state, trace, and whether `wake` returned.
`returned = false` means the post-loop busy-wait
(`loop { if terminate_requested && inbox.is_empty() && inbox.is_closed() ... }`,
started.rs lines 93-99) never exits: nothing inside that loop changes
any of the three conditions, so it exits immediately or never. -/
structure WakeResult (S : Type) where
  state : S
  trace : List Event
  returned : Bool

/-- `ManagedAgent::<Started, Agent>::wake` (started.rs lines 53-102):
awaits `after_start`, runs the receive loop, then spins on
`terminate_requested && inbox.is_empty() && inbox.is_closed()`.  When
the loop exited via the Terminate branch the inbox is closed and its
buffer is the untouched `remaining`; when it exited by exhaustion the
channel is closed and empty but `terminate_requested` is false.  The
spin condition therefore holds (once and forever) iff `termReq` is true
and no envelope remained, in which case `terminate()` runs, then
`after_stop` is awaited and `wake` returns; otherwise the spin never
exits and `wake` never returns. -/
def wake {S : Type} (rs : ReactorMap S) (a : AgentM S) (queue : List EnvelopeL) :
    WakeResult S :=
  let d := drain rs a.before_stop queue (a.after_start a.state)
  if d.termReq = true ∧ d.remaining = [] then
    ⟨a.after_stop d.state,
     Event.afterStartAwaited :: (d.trace ++ terminateTrace a.children ++ [Event.afterStopAwaited]),
     true⟩
  else
    ⟨d.state, Event.afterStartAwaited :: d.trace, false⟩

/-- Observable events of the older akton runtime's wake loop
(akton-core/src/actors/managed_actor.rs). -/
inductive AkEvent where
  | dequeued (e : EnvelopeL)
  | reactorInvoked (tid : TypeId) (e : EnvelopeL)
  | childStopAwaited (c : Nat)
  | mailboxClosed
  | onBeforeStopCalled
  | asyncHookStarted
  | asyncHookTimedOutLogged
  | asyncHookCompleted
  | onStopCalled
  | wakeReturned
deriving DecidableEq, Repr

/-- Receive loop of `ManagedActor::<Awake<State>, State>::wake`
(managed_actor.rs lines 148-174).  Unlike the acton loop it does not
break on Terminate: `terminate()` (lines 183-198) awaits each child's
suspend in turn and closes the inbox, and the loop then keeps draining
the messages still buffered until `recv` returns `None`.  Pool
supervision (empty in the scenarios of interest) is not modelled. -/
def aktonDrain {S : Type} (rs : ReactorMap S) (children : List Nat) :
    List EnvelopeL → S → S × List AkEvent
  | [], s => (s, [])
  | e :: rest, s =>
    let env := unwrapEnvelope e
    let tid := typeOf env.message
    match reactorsGet rs tid with
    | some r =>
      let d := aktonDrain rs children rest (applyReactor r s env)
      (d.1, AkEvent.dequeued e :: AkEvent.reactorInvoked tid env :: d.2)
    | none =>
      if env.message = Message.signalTerminate then
        let d := aktonDrain rs children rest s
        (d.1,
         AkEvent.dequeued e ::
           (children.map AkEvent.childStopAwaited ++ [AkEvent.mailboxClosed]) ++ d.2)
      else
        let d := aktonDrain rs children rest s
        (d.1, AkEvent.dequeued e :: d.2)

/-- The shutdown hook sequence after the akton receive loop
(managed_actor.rs lines 175-181): the synchronous `on_before_stop`
callback runs, then, if an `on_before_stop_async` hook is present, it is
awaited under `timeout(Duration::from_secs(5), ...)`; when the timeout
elapses (or the hook otherwise fails inside the timeout) the error is
only logged, and in every case the synchronous `on_stop` callback runs
next. -/
def aktonHookTail (hasAsyncHook timesOut : Bool) : List AkEvent :=
  AkEvent.onBeforeStopCalled ::
    (if hasAsyncHook then
       AkEvent.asyncHookStarted ::
         (if timesOut then [AkEvent.asyncHookTimedOutLogged] else [AkEvent.asyncHookCompleted])
     else []) ++ [AkEvent.onStopCalled]

/-- `ManagedActor::<Awake<State>, State>::wake`
(managed_actor.rs lines 144-182): the receive loop followed by the hook
tail; `wake` returns right after `on_stop`. -/
def aktonWake {S : Type} (rs : ReactorMap S) (children : List Nat)
    (queue : List EnvelopeL) (s : S) (hasAsyncHook timesOut : Bool) :
    S × List AkEvent :=
  let d := aktonDrain rs children queue s
  (d.1, d.2 ++ aktonHookTail hasAsyncHook timesOut ++ [AkEvent.wakeReturned])

/-- Messages the akton `Subscribable` impl can emit to the broker. -/
inductive AktonOutMsg where
  | ping
  | subscribeBroker (subscriberId : Nat) (messageTypeId : TypeId)
deriving DecidableEq, Repr

/-- `Subscribable::subscribe::<M>` from
akton-core/src/traits/subscribable.rs (lines 58-86), returning the list
of (broker id, message) sends it performs.  The source constructs a
`SubscribeBroker` value carrying the subscriber id and
`TypeId::of::<M>()` (lines 63-67), but its `envelope.reply(subscription,
None)` is commented out (line 74); inside the `if let Some(broker)`
branch the binding is shadowed by `let subscription = Ping;` (line 75)
and that `Ping` is what `broker.emit_async` sends (line 84).  With no
broker configured nothing is sent. -/
def subscribe (subscriberId : Nat) (messageTypeId : TypeId) (broker : Option Nat) :
    List (Nat × AktonOutMsg) :=
  let subscription := AktonOutMsg.subscribeBroker subscriberId messageTypeId
  match broker with
  | some b =>
    let subscription := AktonOutMsg.ping
    [(b, subscription)]
  | none => []

/-- The mailbox send capability held by an outbound envelope; `closed`
models the only way `Sender::send` can fail. -/
structure OutboundChannelM where
  closed : Bool
deriving DecidableEq, Repr

/-- `OutboundEnvelope` from quasar-core/src/common/outbound_envelope.rs:
the sender's id plus an optional reply channel. -/
structure OutboundEnvelopeM where
  sender : Nat
  reply_to : Option OutboundChannelM
deriving DecidableEq, Repr

/-- An envelope actually handed to `reply_to.send`. -/
structure SentEnvelope where
  message : Message
  pool_id : Option Nat
deriving DecidableEq, Repr

/-- The send error propagated by the `?` in `reply`/`reply_all`. -/
inductive MessageErrorM where
  | sendFailed
deriving DecidableEq, Repr

/-- `OutboundEnvelope::reply` (outbound_envelope.rs lines 39-51): when a
reply channel is present the envelope is sent and a send failure
propagates via `?`; when `reply_to` is `None` the body is skipped and
`Ok(())` is returned without sending anything.  The result carries the
list of envelopes sent. -/
def reply (env : OutboundEnvelopeM) (message : Message) (pool_id : Option Nat) :
    Except MessageErrorM (List SentEnvelope) :=
  match env.reply_to with
  | some ch =>
    if ch.closed then Except.error MessageErrorM.sendFailed
    else Except.ok [⟨message, pool_id⟩]
  | none => Except.ok []

/-- `OutboundEnvelope::reply_all` (outbound_envelope.rs lines 53-65):
same shape as `reply` with the pool id fixed to `None`. -/
def reply_all (env : OutboundEnvelopeM) (message : Message) :
    Except MessageErrorM (List SentEnvelope) :=
  match env.reply_to with
  | some ch =>
    if ch.closed then Except.error MessageErrorM.sendFailed
    else Except.ok [⟨message, none⟩]
  | none => Except.ok []

/-- If a list splits as `A ++ B` with `x ∈ A` and `y ∉ A`, then in any
decomposition of the list around an occurrence of `y`, the part before
that occurrence contains `x`. -/
lemma mem_left_of_append_split {α : Type} (A B : List α) (x y : α)
    (hx : x ∈ A) (hy : y ∉ A) :
    ∀ l₁ l₂ : List α, A ++ B = l₁ ++ y :: l₂ → x ∈ l₁ := by
  intro l₁ l₂ heq
  by_cases hlen : l₁.length < A.length
  · exfalso
    have h1 : (A ++ B).get? l₁.length = some y := by
      rw [heq, List.get?_append_right (le_refl l₁.length)]
      simp
    rw [List.get?_append hlen] at h1
    exact hy (List.get?_mem h1)
  · push_neg at hlen
    have hA : A <+: l₁ := by
      have h1 : A <+: l₁ ++ y :: l₂ := heq ▸ List.prefix_append A B
      have h2 : l₁ <+: l₁ ++ y :: l₂ := List.prefix_append l₁ (y :: l₂)
      exact List.prefix_of_prefix_length_le h1 h2 hlen
    exact hA.subset hx

/-- Unfolding: dequeuing an envelope whose dispatched type has a
registered reactor invokes that reactor and continues. -/
lemma drain_cons_some {S : Type} (rs : ReactorMap S) (bs : S → S) (e : EnvelopeL)
    (rest : List EnvelopeL) (s : S) (r : ReactorItem S)
    (hres : reactorsGet rs (typeOf (unwrapEnvelope e).message) = some r) :
    drain rs bs (e :: rest) s =
      ⟨(drain rs bs rest (applyReactor r s (unwrapEnvelope e))).state,
       Event.dequeued e :: Event.debugLogged (typeOf e.message) ::
         Event.reactorInvoked (typeOf (unwrapEnvelope e).message) (unwrapEnvelope e)
           (isFutureReactor r) ::
         (drain rs bs rest (applyReactor r s (unwrapEnvelope e))).trace,
       (drain rs bs rest (applyReactor r s (unwrapEnvelope e))).termReq,
       (drain rs bs rest (applyReactor r s (unwrapEnvelope e))).remaining⟩ := by
  simp only [drain, hres]

/-- Unfolding: dequeuing an unhandled `Terminate` awaits `before_stop`,
closes the mailbox and breaks with the rest of the queue untouched. -/
lemma drain_cons_term {S : Type} (rs : ReactorMap S) (bs : S → S) (e : EnvelopeL)
    (rest : List EnvelopeL) (s : S)
    (hres : reactorsGet rs (typeOf (unwrapEnvelope e).message) = none)
    (hterm : (unwrapEnvelope e).message = Message.signalTerminate) :
    drain rs bs (e :: rest) s =
      ⟨bs s,
       [Event.dequeued e, Event.debugLogged (typeOf e.message),
        Event.beforeStopAwaited, Event.mailboxClosed],
       true, rest⟩ := by
  simp only [drain, hres]
  rw [if_pos hterm]

/-- Unfolding: dequeuing an unhandled non-`Terminate` message only logs
and continues from the same state. -/
lemma drain_cons_drop {S : Type} (rs : ReactorMap S) (bs : S → S) (e : EnvelopeL)
    (rest : List EnvelopeL) (s : S)
    (hres : reactorsGet rs (typeOf (unwrapEnvelope e).message) = none)
    (hterm : (unwrapEnvelope e).message ≠ Message.signalTerminate) :
    drain rs bs (e :: rest) s =
      ⟨(drain rs bs rest s).state,
       Event.dequeued e :: Event.debugLogged (typeOf e.message) ::
         (drain rs bs rest s).trace,
       (drain rs bs rest s).termReq,
       (drain rs bs rest s).remaining⟩ := by
  simp only [drain, hres]
  rw [if_neg hterm]

/-- The receive loop emits no lifecycle events other than
`beforeStopAwaited`/`mailboxClosed`: `afterStartAwaited`,
`afterStopAwaited` and child-stop events never occur in its trace. -/
lemma drain_trace_mem {S : Type} (rs : ReactorMap S) (bs : S → S) :
    ∀ (queue : List EnvelopeL) (s : S) (ev : Event), ev ∈ (drain rs bs queue s).trace →
      ev ≠ Event.afterStartAwaited ∧ ev ≠ Event.afterStopAwaited ∧
        ∀ c, ev ≠ Event.childStopAwaited c := by
  intro queue
  induction queue with
  | nil => intro s ev h; simp [drain] at h
  | cons e rest ih =>
    intro s ev h
    cases hres : reactorsGet rs (typeOf (unwrapEnvelope e).message) with
    | some r =>
      rw [drain_cons_some rs bs e rest s r hres] at h
      simp only [List.mem_cons] at h
      rcases h with h | h | h | h
      · subst h; refine ⟨by simp, by simp, by simp⟩
      · subst h; refine ⟨by simp, by simp, by simp⟩
      · subst h; refine ⟨by simp, by simp, by simp⟩
      · exact ih _ ev h
    | none =>
      by_cases hterm : (unwrapEnvelope e).message = Message.signalTerminate
      · rw [drain_cons_term rs bs e rest s hres hterm] at h
        simp only [List.mem_cons, List.not_mem_nil] at h
        rcases h with h | h | h | h | h
        · subst h; refine ⟨by simp, by simp, by simp⟩
        · subst h; refine ⟨by simp, by simp, by simp⟩
        · subst h; refine ⟨by simp, by simp, by simp⟩
        · subst h; refine ⟨by simp, by simp, by simp⟩
        · exact absurd h (by simp)
      · rw [drain_cons_drop rs bs e rest s hres hterm] at h
        simp only [List.mem_cons] at h
        rcases h with h | h | h
        · subst h; refine ⟨by simp, by simp, by simp⟩
        · subst h; refine ⟨by simp, by simp, by simp⟩
        · exact ih _ ev h

/-- When the receive loop sets `terminate_requested`, its trace ends
exactly with the `before_stop` await followed by the mailbox close, and
neither event occurs earlier. -/
lemma drain_termReq_true_shape {S : Type} (rs : ReactorMap S) (bs : S → S) :
    ∀ (queue : List EnvelopeL) (s : S), (drain rs bs queue s).termReq = true →
      ∃ tr₀, (drain rs bs queue s).trace =
          tr₀ ++ [Event.beforeStopAwaited, Event.mailboxClosed] ∧
        Event.beforeStopAwaited ∉ tr₀ ∧ Event.mailboxClosed ∉ tr₀ := by
  intro queue
  induction queue with
  | nil => intro s h; simp [drain] at h
  | cons e rest ih =>
    intro s h
    cases hres : reactorsGet rs (typeOf (unwrapEnvelope e).message) with
    | some r =>
      rw [drain_cons_some rs bs e rest s r hres] at h ⊢
      rcases ih _ h with ⟨tr₀, htr, hbs, hmc⟩
      refine ⟨Event.dequeued e :: Event.debugLogged (typeOf e.message) ::
        Event.reactorInvoked (typeOf (unwrapEnvelope e).message) (unwrapEnvelope e)
          (isFutureReactor r) :: tr₀, ?_, ?_, ?_⟩
      · simp [htr]
      · simp [hbs]
      · simp [hmc]
    | none =>
      by_cases hterm : (unwrapEnvelope e).message = Message.signalTerminate
      · rw [drain_cons_term rs bs e rest s hres hterm]
        refine ⟨[Event.dequeued e, Event.debugLogged (typeOf e.message)], by simp, by simp, by simp⟩
      · rw [drain_cons_drop rs bs e rest s hres hterm] at h ⊢
        rcases ih _ h with ⟨tr₀, htr, hbs, hmc⟩
        refine ⟨Event.dequeued e :: Event.debugLogged (typeOf e.message) :: tr₀, ?_, ?_, ?_⟩
        · simp [htr]
        · simp [hbs]
        · simp [hmc]

/-- When the receive loop exits without `terminate_requested` (mailbox
exhausted), neither `before_stop` nor a mailbox close occurs in its
trace. -/
lemma drain_termReq_false_shape {S : Type} (rs : ReactorMap S) (bs : S → S) :
    ∀ (queue : List EnvelopeL) (s : S), (drain rs bs queue s).termReq = false →
      Event.beforeStopAwaited ∉ (drain rs bs queue s).trace ∧
        Event.mailboxClosed ∉ (drain rs bs queue s).trace := by
  intro queue
  induction queue with
  | nil => intro s _; simp [drain]
  | cons e rest ih =>
    intro s h
    cases hres : reactorsGet rs (typeOf (unwrapEnvelope e).message) with
    | some r =>
      rw [drain_cons_some rs bs e rest s r hres] at h ⊢
      rcases ih _ h with ⟨hbs, hmc⟩
      exact ⟨by simp [hbs], by simp [hmc]⟩
    | none =>
      by_cases hterm : (unwrapEnvelope e).message = Message.signalTerminate
      · rw [drain_cons_term rs bs e rest s hres hterm] at h
        simp at h
      · rw [drain_cons_drop rs bs e rest s hres hterm] at h ⊢
        rcases ih _ h with ⟨hbs, hmc⟩
        exact ⟨by simp [hbs], by simp [hmc]⟩

/-- C1: in every run of `wake`, the `after_start` hook is awaited to
completion before the first envelope is dequeued (it is the first trace
event); whenever the mailbox is closed, the `before_stop` await has
already completed (when `Terminate` is dequeued it runs right before the
close); and the `after_stop` hook is awaited only in runs where `wake`
returns, strictly after every event of `terminate()`, as the last event
before `wake` returns. -/
theorem wake_hook_ordering {S : Type} (rs : ReactorMap S) (a : AgentM S)
    (queue : List EnvelopeL) :
    (∃ tr, (wake rs a queue).trace = Event.afterStartAwaited :: tr) ∧
    (∀ l₁ l₂, (wake rs a queue).trace = l₁ ++ Event.mailboxClosed :: l₂ →
      Event.beforeStopAwaited ∈ l₁) ∧
    (Event.afterStopAwaited ∈ (wake rs a queue).trace →
      (wake rs a queue).returned = true) ∧
    ((wake rs a queue).returned = true →
      ∃ tr₀, (wake rs a queue).trace =
          tr₀ ++ (terminateTrace a.children ++ [Event.afterStopAwaited]) ∧
        Event.afterStopAwaited ∉ tr₀) := by
  have hd := drain_termReq_true_shape rs a.before_stop queue (a.after_start a.state)
  have hf := drain_termReq_false_shape rs a.before_stop queue (a.after_start a.state)
  have hmem := drain_trace_mem rs a.before_stop queue (a.after_start a.state)
  simp only [wake]
  split
  case isTrue hc =>
    obtain ⟨tr₀, htr, hbs0, hmc0⟩ := hd hc.1
    refine ⟨⟨_, rfl⟩, ?_, fun _ => rfl, fun _ => ?_⟩
    · intro l₁ l₂ heq
      have hform : Event.afterStartAwaited ::
          ((drain rs a.before_stop queue (a.after_start a.state)).trace ++
            terminateTrace a.children ++ [Event.afterStopAwaited]) =
          (Event.afterStartAwaited :: (tr₀ ++ [Event.beforeStopAwaited])) ++
            (Event.mailboxClosed :: (terminateTrace a.children ++ [Event.afterStopAwaited])) := by
        rw [htr]; simp
      simp only [WakeResult.trace] at heq
      rw [hform] at heq
      exact mem_left_of_append_split _ _ Event.beforeStopAwaited Event.mailboxClosed
        (by simp) (by simp [hmc0]) l₁ l₂ heq
    · refine ⟨Event.afterStartAwaited ::
        (drain rs a.before_stop queue (a.after_start a.state)).trace, by simp, ?_⟩
      simp only [List.mem_cons]
      rintro (h | h)
      · exact absurd h (by simp)
      · exact (hmem Event.afterStopAwaited h).2.1 rfl
  case isFalse hc =>
    refine ⟨⟨_, rfl⟩, ?_, ?_, fun h => absurd h (by simp)⟩
    · intro l₁ l₂ heq
      simp only [WakeResult.trace] at heq
      by_cases hq : (drain rs a.before_stop queue (a.after_start a.state)).termReq = true
      · obtain ⟨tr₀, htr, hbs0, hmc0⟩ := hd hq
        have hform : Event.afterStartAwaited ::
            (drain rs a.before_stop queue (a.after_start a.state)).trace =
            (Event.afterStartAwaited :: (tr₀ ++ [Event.beforeStopAwaited])) ++
              (Event.mailboxClosed :: []) := by
          rw [htr]; simp
        rw [hform] at heq
        exact mem_left_of_append_split _ _ Event.beforeStopAwaited Event.mailboxClosed
          (by simp) (by simp [hmc0]) l₁ l₂ heq
      · exfalso
        have hmc := (hf (by simpa using hq)).2
        have : Event.mailboxClosed ∈ Event.afterStartAwaited ::
            (drain rs a.before_stop queue (a.after_start a.state)).trace := by
          rw [heq]; simp
        rcases List.mem_cons.mp this with h | h
        · exact absurd h (by simp)
        · exact hmc h
    · intro h
      simp only [WakeResult.trace, List.mem_cons] at h
      rcases h with h | h
      · exact absurd h (by simp)
      · exact absurd rfl ((hmem Event.afterStopAwaited h).2.1)

/-- Witness: the hook ordering holds on the concrete run of an agent
with no reactors that dequeues a single `Terminate`. -/
theorem wake_hook_ordering_witness :
    (∃ tr, (wake ([] : ReactorMap Nat) ⟨0, id, id, id, []⟩
        [⟨Message.signalTerminate, none⟩]).trace = Event.afterStartAwaited :: tr) ∧
    (∀ l₁ l₂, (wake ([] : ReactorMap Nat) ⟨0, id, id, id, []⟩
        [⟨Message.signalTerminate, none⟩]).trace = l₁ ++ Event.mailboxClosed :: l₂ →
      Event.beforeStopAwaited ∈ l₁) ∧
    (Event.afterStopAwaited ∈ (wake ([] : ReactorMap Nat) ⟨0, id, id, id, []⟩
        [⟨Message.signalTerminate, none⟩]).trace →
      (wake ([] : ReactorMap Nat) ⟨0, id, id, id, []⟩
        [⟨Message.signalTerminate, none⟩]).returned = true) ∧
    ((wake ([] : ReactorMap Nat) ⟨0, id, id, id, []⟩
        [⟨Message.signalTerminate, none⟩]).returned = true →
      ∃ tr₀, (wake ([] : ReactorMap Nat) ⟨0, id, id, id, []⟩
          [⟨Message.signalTerminate, none⟩]).trace =
          tr₀ ++ (terminateTrace ([] : List Nat) ++ [Event.afterStopAwaited]) ∧
        Event.afterStopAwaited ∉ tr₀) :=
  wake_hook_ordering ([] : ReactorMap Nat) ⟨0, id, id, id, []⟩
    [⟨Message.signalTerminate, none⟩]

/-- C2: a dequeued envelope whose payload is a `BrokerRequestEnvelope`
wrapping `inner` is replaced by an envelope carrying a clone of `inner`
with the outer envelope's return address, the reactor lookup uses
`inner`'s runtime type id (not the wrapper's), and the handler
registered for that id receives the inner message. -/
theorem dispatch_broker_unwrap {S : Type} (rs : ReactorMap S) (bs : S → S)
    (inner : Message) (ra : Option Nat) (rest : List EnvelopeL) (s : S)
    (r : ReactorItem S) (hres : reactorsGet rs (typeOf inner) = some r) :
    unwrapEnvelope ⟨Message.brokerWrap inner, ra⟩ = ⟨inner, ra⟩ ∧
    drain rs bs (⟨Message.brokerWrap inner, ra⟩ :: rest) s =
      ⟨(drain rs bs rest (applyReactor r s ⟨inner, ra⟩)).state,
       Event.dequeued ⟨Message.brokerWrap inner, ra⟩ ::
         Event.debugLogged TypeId.brokerEnv ::
         Event.reactorInvoked (typeOf inner) ⟨inner, ra⟩ (isFutureReactor r) ::
         (drain rs bs rest (applyReactor r s ⟨inner, ra⟩)).trace,
       (drain rs bs rest (applyReactor r s ⟨inner, ra⟩)).termReq,
       (drain rs bs rest (applyReactor r s ⟨inner, ra⟩)).remaining⟩ := by
  have hunwrap : unwrapEnvelope ⟨Message.brokerWrap inner, ra⟩ = ⟨inner, ra⟩ := rfl
  refine ⟨hunwrap, ?_⟩
  have hres' : reactorsGet rs
      (typeOf (unwrapEnvelope ⟨Message.brokerWrap inner, ra⟩).message) = some r := by
    rw [hunwrap]; exact hres
  rw [drain_cons_some rs bs ⟨Message.brokerWrap inner, ra⟩ rest s r hres', hunwrap]
  rfl

/-- Witness: unwrapping on a concrete broker-wrapped user message with a
registered handler for the inner type. -/
theorem dispatch_broker_unwrap_witness :
    reactorsGet [(TypeId.user 0, ReactorItem.messageReactor (fun (s : Nat) _ => s + 1))]
      (typeOf (Message.user 0 9)) =
      some (ReactorItem.messageReactor (fun (s : Nat) _ => s + 1)) ∧
    (unwrapEnvelope ⟨Message.brokerWrap (Message.user 0 9), some 3⟩ =
      ⟨Message.user 0 9, some 3⟩ ∧
    drain [(TypeId.user 0, ReactorItem.messageReactor (fun (s : Nat) _ => s + 1))] id
        (⟨Message.brokerWrap (Message.user 0 9), some 3⟩ :: []) 0 =
      ⟨(drain [(TypeId.user 0, ReactorItem.messageReactor (fun (s : Nat) _ => s + 1))] id []
          (applyReactor (ReactorItem.messageReactor (fun (s : Nat) _ => s + 1)) 0
            ⟨Message.user 0 9, some 3⟩)).state,
       Event.dequeued ⟨Message.brokerWrap (Message.user 0 9), some 3⟩ ::
         Event.debugLogged TypeId.brokerEnv ::
         Event.reactorInvoked (typeOf (Message.user 0 9)) ⟨Message.user 0 9, some 3⟩
           (isFutureReactor (ReactorItem.messageReactor (fun (s : Nat) _ => s + 1))) ::
         (drain [(TypeId.user 0, ReactorItem.messageReactor (fun (s : Nat) _ => s + 1))] id []
           (applyReactor (ReactorItem.messageReactor (fun (s : Nat) _ => s + 1)) 0
             ⟨Message.user 0 9, some 3⟩)).trace,
       (drain [(TypeId.user 0, ReactorItem.messageReactor (fun (s : Nat) _ => s + 1))] id []
           (applyReactor (ReactorItem.messageReactor (fun (s : Nat) _ => s + 1)) 0
             ⟨Message.user 0 9, some 3⟩)).termReq,
       (drain [(TypeId.user 0, ReactorItem.messageReactor (fun (s : Nat) _ => s + 1))] id []
           (applyReactor (ReactorItem.messageReactor (fun (s : Nat) _ => s + 1)) 0
             ⟨Message.user 0 9, some 3⟩)).remaining⟩) :=
  ⟨rfl, dispatch_broker_unwrap
    [(TypeId.user 0, ReactorItem.messageReactor (fun (s : Nat) _ => s + 1))] id
    (Message.user 0 9) (some 3) [] 0
    (ReactorItem.messageReactor (fun (s : Nat) _ => s + 1)) rfl⟩

/-- C3: when the queue is `q₁`, then an unhandled `Terminate`, then
`q₂`, and no envelope of `q₁` takes the Terminate branch, the receive
loop processes every envelope of `q₁` in order — emitting its step
events, including the (awaited) reactor invocation when a reactor is
registered — strictly before the `before_stop` await and the mailbox
close that follow the `Terminate`, and it leaves every envelope of `q₂`
unprocessed in the mailbox. -/
theorem drain_processes_before_terminate {S : Type} (rs : ReactorMap S) (bs : S → S)
    (q₁ q₂ : List EnvelopeL) (ra : Option Nat) :
    ∀ s : S,
    (∀ e ∈ q₁, ¬(reactorsGet rs (typeOf (unwrapEnvelope e).message) = none ∧
        (unwrapEnvelope e).message = Message.signalTerminate)) →
    reactorsGet rs TypeId.signal = none →
    drain rs bs (q₁ ++ ⟨Message.signalTerminate, ra⟩ :: q₂) s =
      ⟨bs (q₁.foldl (stepState rs) s),
       q₁.flatMap (stepTrace rs) ++
         [Event.dequeued ⟨Message.signalTerminate, ra⟩, Event.debugLogged TypeId.signal,
          Event.beforeStopAwaited, Event.mailboxClosed],
       true, q₂⟩ := by
  induction q₁ with
  | nil =>
    intro s h₁ h₂
    have hterm : (unwrapEnvelope ⟨Message.signalTerminate, ra⟩).message =
        Message.signalTerminate := rfl
    have hres : reactorsGet rs
        (typeOf (unwrapEnvelope ⟨Message.signalTerminate, ra⟩).message) = none := h₂
    simp only [List.nil_append]
    rw [drain_cons_term rs bs _ q₂ s hres hterm]
    simp only [List.foldl_nil, List.flatMap_nil, List.nil_append]
    rfl
  | cons e q₁' ih =>
    intro s h₁ h₂
    have he := h₁ e (List.mem_cons_self e q₁')
    cases hres : reactorsGet rs (typeOf (unwrapEnvelope e).message) with
    | some r =>
      rw [List.cons_append, drain_cons_some rs bs e _ s r hres,
        ih (applyReactor r s (unwrapEnvelope e))
          (fun e' he' => h₁ e' (List.mem_cons_of_mem e he')) h₂]
      simp [stepTrace, stepState, hres, List.flatMap_cons]
    | none =>
      have hterm : (unwrapEnvelope e).message ≠ Message.signalTerminate :=
        fun h => he ⟨hres, h⟩
      rw [List.cons_append, drain_cons_drop rs bs e _ s hres hterm,
        ih s (fun e' he' => h₁ e' (List.mem_cons_of_mem e he')) h₂]
      simp [stepTrace, stepState, hres, List.flatMap_cons]

/-- Witness: the drain characterization on a concrete queue holding one
handled user message, then `Terminate`, then one more message. -/
theorem drain_processes_before_terminate_witness :
    (∀ e ∈ [(⟨Message.user 0 1, none⟩ : EnvelopeL)],
       ¬(reactorsGet [(TypeId.user 0, ReactorItem.messageReactor (fun (s : Nat) _ => s + 1))]
           (typeOf (unwrapEnvelope e).message) = none ∧
         (unwrapEnvelope e).message = Message.signalTerminate)) ∧
    reactorsGet [(TypeId.user 0, ReactorItem.messageReactor (fun (s : Nat) _ => s + 1))]
      TypeId.signal = none ∧
    drain [(TypeId.user 0, ReactorItem.messageReactor (fun (s : Nat) _ => s + 1))] id
        ([⟨Message.user 0 1, none⟩] ++
          (⟨Message.signalTerminate, none⟩ : EnvelopeL) :: [⟨Message.user 0 2, none⟩]) 0 =
      ⟨id (([(⟨Message.user 0 1, none⟩ : EnvelopeL)]).foldl
          (stepState [(TypeId.user 0, ReactorItem.messageReactor (fun (s : Nat) _ => s + 1))]) 0),
       ([(⟨Message.user 0 1, none⟩ : EnvelopeL)]).flatMap
          (stepTrace [(TypeId.user 0, ReactorItem.messageReactor (fun (s : Nat) _ => s + 1))]) ++
         [Event.dequeued ⟨Message.signalTerminate, none⟩, Event.debugLogged TypeId.signal,
          Event.beforeStopAwaited, Event.mailboxClosed],
       true, [⟨Message.user 0 2, none⟩]⟩ := by
  refine ⟨?_, rfl, ?_⟩
  · intro e he
    simp only [List.mem_singleton] at he
    subst he
    exact fun h => Option.noConfusion h.1
  · exact drain_processes_before_terminate _ id [⟨Message.user 0 1, none⟩]
      [⟨Message.user 0 2, none⟩] none 0
      (by intro e he
          simp only [List.mem_singleton] at he
          subst he
          exact fun h => Option.noConfusion h.1)
      rfl

/-- C4: `terminate()` stops every child currently in the children map —
each child contributes exactly one awaited stop, and every one of them
has resolved before the mailbox close that `terminate` performs last —
and the close is idempotent: the behaviour is the same whether or not
the drain loop already closed the mailbox, and the flag ends up set
either way. -/
theorem terminate_joins_children_then_closes (children : List Nat) (mb : MailboxState)
    (hnd : children.Nodup) :
    (terminateRun children mb).1.closed = true ∧
    terminateRun children ⟨true⟩ = terminateRun children ⟨false⟩ ∧
    (∀ c ∈ children,
      ((terminateRun children mb).2.count (Event.childStopAwaited c)) = 1) ∧
    (∀ l₁ l₂, (terminateRun children mb).2 = l₁ ++ Event.mailboxClosed :: l₂ →
      ∀ c ∈ children, Event.childStopAwaited c ∈ l₁) := by
  have hinj : Function.Injective Event.childStopAwaited := by
    intro a b h
    injection h
  refine ⟨rfl, rfl, ?_, ?_⟩
  · intro c hc
    simp only [terminateRun, terminateTrace]
    rw [List.count_append, List.count_map_of_injective children Event.childStopAwaited hinj c,
      List.count_eq_one_of_mem hnd hc]
    simp
  · intro l₁ l₂ heq c hc
    simp only [terminateRun, terminateTrace] at heq
    exact mem_left_of_append_split (children.map Event.childStopAwaited) [Event.mailboxClosed]
      (Event.childStopAwaited c) Event.mailboxClosed
      (List.mem_map_of_mem Event.childStopAwaited hc) (by simp) l₁ l₂ heq

/-- Witness: the terminate protocol on the concrete children list
`[1, 2]` with the mailbox already closed. -/
theorem terminate_joins_children_then_closes_witness :
    [1, 2].Nodup ∧
    ((terminateRun [1, 2] ⟨true⟩).1.closed = true ∧
    terminateRun [1, 2] ⟨true⟩ = terminateRun [1, 2] ⟨false⟩ ∧
    (∀ c ∈ [1, 2],
      ((terminateRun [1, 2] ⟨true⟩).2.count (Event.childStopAwaited c)) = 1) ∧
    (∀ l₁ l₂, (terminateRun [1, 2] ⟨true⟩).2 = l₁ ++ Event.mailboxClosed :: l₂ →
      ∀ c ∈ [1, 2], Event.childStopAwaited c ∈ l₁)) :=
  ⟨by decide, terminate_joins_children_then_closes [1, 2] ⟨true⟩ (by decide)⟩

/-- C5 evaluation (the claim fails on the code): when the receive loop
exits because all senders dropped without a `Terminate` having been
dequeued, `terminate_requested` is still false, so the post-loop spin
`loop { if terminate_requested && inbox.is_empty() && inbox.is_closed() }`
can never take its branch: `terminate()` never runs, `after_stop` is
never awaited and `wake` never returns.  The same happens when
`Terminate` is dequeued with another message still buffered behind it,
since nothing drains the buffer after the break. -/
theorem wake_spin_never_exits_eval :
    (wake ([] : ReactorMap Nat) ⟨0, id, id, id, []⟩ []).returned = false ∧
    Event.afterStopAwaited ∉ (wake ([] : ReactorMap Nat) ⟨0, id, id, id, []⟩ []).trace ∧
    (wake ([] : ReactorMap Nat) ⟨0, id, id, id, []⟩
        [⟨Message.signalTerminate, none⟩, ⟨Message.user 0 0, none⟩]).returned = false := by
  refine ⟨rfl, ?_, rfl⟩
  decide

/-- C6 evaluation (the claim fails on the code): with a broker
configured, `subscribe` performs exactly one send to the broker, and the
message sent is `Ping`; the `SubscribeBroker` value carrying
`TypeId::of::<T>()` and the subscriber's identity is constructed but
never emitted (its send is commented out and the binding is shadowed). -/
theorem subscribe_emits_ping_eval :
    subscribe 1 (TypeId.user 0) (some 7) = [(7, AktonOutMsg.ping)] ∧
    ∀ p ∈ subscribe 1 (TypeId.user 0) (some 7),
      p.2 ≠ AktonOutMsg.subscribeBroker 1 (TypeId.user 0) := by
  refine ⟨rfl, ?_⟩
  decide

/-- Inserting into the reactor map preserves the at-most-one-entry-per-
type-id invariant. -/
lemma countKey_insert_le_one {S : Type} (m : ReactorMap S) (tid : TypeId)
    (r : ReactorItem S) (hm : ∀ t, countKey m t ≤ 1) :
    ∀ t, countKey (reactorsInsert m tid r) t ≤ 1 := by
  intro t
  by_cases h : t = tid
  · subst h
    have hnil : ((m.filter (fun p => decide (¬ p.1 = t))).filter
        (fun p => decide (p.1 = t))) = [] := by
      rw [List.filter_eq_nil]
      intro p hp
      have hmem := List.of_mem_filter hp
      simp only [decide_not, Bool.not_eq_true', decide_eq_false_iff_not] at hmem
      simp only [decide_eq_true_eq]
      exact hmem
    simp [countKey, reactorsInsert, List.filter_cons, hnil]
  · have hne : tid ≠ t := fun hh => h hh.symm
    have hsub : List.Sublist
        ((m.filter (fun p => decide (¬ p.1 = tid))).filter (fun p => decide (p.1 = t)))
        (m.filter (fun p => decide (p.1 = t))) :=
      (List.filter_sublist m).filter _
    have hlen := hsub.length_le
    calc countKey (reactorsInsert m tid r) t
        = ((m.filter (fun p => decide (¬ p.1 = tid))).filter
            (fun p => decide (p.1 = t))).length := by
          simp [countKey, reactorsInsert, List.filter_cons, hne]
      _ ≤ (m.filter (fun p => decide (p.1 = t))).length := hlen
      _ ≤ 1 := hm t

/-- C7: registering a second reactor for the same message type replaces
the first: the lookup for that type id yields the second reactor, the
map still holds at most one entry per type id, and after activation a
dispatched message of that type invokes only the second reactor (the
resulting run applies `r₂`, and its trace holds exactly one invocation
event, carrying `r₂`'s reactor kind). -/
theorem act_on_replaces {S : Type} (m : ReactorMap S) (n v : Nat) (ra : Option Nat)
    (r₁ r₂ : ReactorItem S) (bs : S → S) (s : S)
    (hm : ∀ t, countKey m t ≤ 1) :
    reactorsGet (act_on (act_on m (TypeId.user n) r₁) (TypeId.user n) r₂)
      (TypeId.user n) = some r₂ ∧
    (∀ t, countKey (act_on (act_on m (TypeId.user n) r₁) (TypeId.user n) r₂) t ≤ 1) ∧
    drain (act_on (act_on m (TypeId.user n) r₁) (TypeId.user n) r₂) bs
        [⟨Message.user n v, ra⟩] s =
      ⟨applyReactor r₂ s ⟨Message.user n v, ra⟩,
       [Event.dequeued ⟨Message.user n v, ra⟩, Event.debugLogged (TypeId.user n),
        Event.reactorInvoked (TypeId.user n) ⟨Message.user n v, ra⟩ (isFutureReactor r₂)],
       false, []⟩ := by
  have hget : reactorsGet (act_on (act_on m (TypeId.user n) r₁) (TypeId.user n) r₂)
      (TypeId.user n) = some r₂ := by
    simp [act_on, reactorsInsert, reactorsGet]
  refine ⟨hget, ?_, ?_⟩
  · exact countKey_insert_le_one _ _ _ (countKey_insert_le_one _ _ _ hm)
  · have hget' : reactorsGet (act_on (act_on m (TypeId.user n) r₁) (TypeId.user n) r₂)
        (typeOf (unwrapEnvelope ⟨Message.user n v, ra⟩).message) = some r₂ := hget
    rw [drain_cons_some _ bs _ [] s r₂ hget']
    rfl

/-- Witness: double registration on the empty map with two concrete
reactors; the dispatched message runs the second one. -/
theorem act_on_replaces_witness :
    (∀ t, countKey ([] : ReactorMap Nat) t ≤ 1) ∧
    (reactorsGet (act_on (act_on ([] : ReactorMap Nat) (TypeId.user 0)
        (ReactorItem.messageReactor (fun s _ => s + 1))) (TypeId.user 0)
        (ReactorItem.messageReactor (fun s _ => s * 3))) (TypeId.user 0) =
      some (ReactorItem.messageReactor (fun s _ => s * 3)) ∧
    (∀ t, countKey (act_on (act_on ([] : ReactorMap Nat) (TypeId.user 0)
        (ReactorItem.messageReactor (fun s _ => s + 1))) (TypeId.user 0)
        (ReactorItem.messageReactor (fun s _ => s * 3))) t ≤ 1) ∧
    drain (act_on (act_on ([] : ReactorMap Nat) (TypeId.user 0)
        (ReactorItem.messageReactor (fun s _ => s + 1))) (TypeId.user 0)
        (ReactorItem.messageReactor (fun s _ => s * 3))) id
        [⟨Message.user 0 4, none⟩] 5 =
      ⟨applyReactor (ReactorItem.messageReactor (fun s _ => s * 3)) 5
          ⟨Message.user 0 4, none⟩,
       [Event.dequeued ⟨Message.user 0 4, none⟩, Event.debugLogged (TypeId.user 0),
        Event.reactorInvoked (TypeId.user 0) ⟨Message.user 0 4, none⟩
          (isFutureReactor (ReactorItem.messageReactor (fun s _ => s * 3)))],
       false, []⟩) :=
  ⟨fun t => by simp [countKey],
   act_on_replaces ([] : ReactorMap Nat) 0 4 none
     (ReactorItem.messageReactor (fun s _ => s + 1))
     (ReactorItem.messageReactor (fun s _ => s * 3)) id 5
     (fun t => by simp [countKey])⟩

/-- C8: a dequeued envelope whose dispatched type has no registered
reactor and is not the `Terminate` signal is dropped: the run only
records the dequeue and the line-60 debug log for it, no error value
exists to surface, the state passed to the rest of the queue is
unchanged, the termination flag is unaffected and the loop continues
with the next envelope. -/
theorem unknown_message_dropped {S : Type} (rs : ReactorMap S) (bs : S → S)
    (e : EnvelopeL) (rest : List EnvelopeL) (s : S)
    (hres : reactorsGet rs (typeOf (unwrapEnvelope e).message) = none)
    (hterm : (unwrapEnvelope e).message ≠ Message.signalTerminate) :
    (drain rs bs (e :: rest) s).state = (drain rs bs rest s).state ∧
    (drain rs bs (e :: rest) s).trace =
      Event.dequeued e :: Event.debugLogged (typeOf e.message) ::
        (drain rs bs rest s).trace ∧
    (drain rs bs (e :: rest) s).termReq = (drain rs bs rest s).termReq ∧
    (drain rs bs (e :: rest) s).remaining = (drain rs bs rest s).remaining := by
  rw [drain_cons_drop rs bs e rest s hres hterm]
  exact ⟨rfl, rfl, rfl, rfl⟩

/-- Witness: dropping a concrete unhandled user message with no reactors
registered. -/
theorem unknown_message_dropped_witness :
    reactorsGet ([] : ReactorMap Nat)
      (typeOf (unwrapEnvelope ⟨Message.user 5 0, none⟩).message) = none ∧
    (unwrapEnvelope ⟨Message.user 5 0, none⟩).message ≠ Message.signalTerminate ∧
    ((drain ([] : ReactorMap Nat) id (⟨Message.user 5 0, none⟩ :: []) 0).state =
      (drain ([] : ReactorMap Nat) id [] 0).state ∧
    (drain ([] : ReactorMap Nat) id (⟨Message.user 5 0, none⟩ :: []) 0).trace =
      Event.dequeued ⟨Message.user 5 0, none⟩ ::
        Event.debugLogged (typeOf (⟨Message.user 5 0, none⟩ : EnvelopeL).message) ::
        (drain ([] : ReactorMap Nat) id [] 0).trace ∧
    (drain ([] : ReactorMap Nat) id (⟨Message.user 5 0, none⟩ :: []) 0).termReq =
      (drain ([] : ReactorMap Nat) id [] 0).termReq ∧
    (drain ([] : ReactorMap Nat) id (⟨Message.user 5 0, none⟩ :: []) 0).remaining =
      (drain ([] : ReactorMap Nat) id [] 0).remaining) :=
  ⟨rfl, fun h => Message.noConfusion h,
   unknown_message_dropped ([] : ReactorMap Nat) id ⟨Message.user 5 0, none⟩ [] 0 rfl
     (fun h => Message.noConfusion h)⟩

/-- C9: when `on_before_stop_async` exceeds its 5-second budget, the
failure is only logged and shutdown proceeds: the trace of `wake` ends
with the timeout log, then the `on_stop` hook, then `wake`'s return; and
for every hook configuration whatsoever, `on_stop` runs and `wake`
returns. -/
theorem akton_hook_timeout_shutdown {S : Type} (rs : ReactorMap S) (children : List Nat)
    (queue : List EnvelopeL) (s : S) :
    (∃ pre, (aktonWake rs children queue s true true).2 =
      pre ++ [AkEvent.asyncHookTimedOutLogged, AkEvent.onStopCalled,
        AkEvent.wakeReturned]) ∧
    (∀ hasAsyncHook timesOut : Bool, ∃ pre,
      (aktonWake rs children queue s hasAsyncHook timesOut).2 =
        pre ++ [AkEvent.onStopCalled, AkEvent.wakeReturned]) := by
  constructor
  · refine ⟨(aktonDrain rs children queue s).2 ++
      [AkEvent.onBeforeStopCalled, AkEvent.asyncHookStarted], ?_⟩
    simp [aktonWake, aktonHookTail]
  · intro hb ht
    cases hb <;> cases ht
    case false.false =>
      refine ⟨(aktonDrain rs children queue s).2 ++ [AkEvent.onBeforeStopCalled], ?_⟩
      simp [aktonWake, aktonHookTail]
    case false.true =>
      refine ⟨(aktonDrain rs children queue s).2 ++ [AkEvent.onBeforeStopCalled], ?_⟩
      simp [aktonWake, aktonHookTail]
    case true.false =>
      refine ⟨(aktonDrain rs children queue s).2 ++
        [AkEvent.onBeforeStopCalled, AkEvent.asyncHookStarted,
         AkEvent.asyncHookCompleted], ?_⟩
      simp [aktonWake, aktonHookTail]
    case true.true =>
      refine ⟨(aktonDrain rs children queue s).2 ++
        [AkEvent.onBeforeStopCalled, AkEvent.asyncHookStarted,
         AkEvent.asyncHookTimedOutLogged], ?_⟩
      simp [aktonWake, aktonHookTail]

/-- C10: an `OutboundEnvelope` with no reply channel silently discards
the message in both `reply` and `reply_all`: nothing is sent and the
result is `Ok`, for every message and pool id. -/
theorem reply_none_silently_ok (sender : Nat) (message : Message)
    (pool_id : Option Nat) :
    reply ⟨sender, none⟩ message pool_id = Except.ok [] ∧
    reply_all ⟨sender, none⟩ message = Except.ok [] :=
  ⟨rfl, rfl⟩
